import Mathlib

/-!
Verification of the EMH CASA 1.1 smart-meter-gateway client (`client.go`).

Go strings are modelled as `List Char` (`Str`).  Numeric meter values, which
the Go code handles as `float64`, are modelled as exact rationals `ℚ`; the
claims under study only exercise values and operations at which `float64`
arithmetic is exact, and the rounding step of `float64` is not modelled.
Fallible Go functions returning `(T, error)` are modelled as `Option`-valued
functions (`none` = non-nil error).  The Go `map[string]float64` is modelled
as a key-distinct association list with overwriting insertion, observed only
through lookup and size, matching the observable behaviour of a Go map.
-/

abbrev Str := List Char

/-- Value of one character as a base-16 digit, written on the character's
code point.  Mirrors Go `strconv`'s per-character digit decoding for base 16:
`'0'..'9'` (48..57), `'a'..'f'` (97..102), `'A'..'F'` (65..70); every other
character is a syntax error. -/
def hexValN (n : Nat) : Option Nat :=
  if 48 ≤ n ∧ n ≤ 57 then some (n - 48)
  else if 97 ≤ n ∧ n ≤ 102 then some (n - 87)
  else if 65 ≤ n ∧ n ≤ 70 then some (n - 55)
  else none

def hexVal (c : Char) : Option Nat := hexValN c.toNat

/-- Digit accumulation loop of Go `strconv.ParseUint(s, 16, 64)`: consume the
digits left to right, failing on a non-digit and on overflow past the
unsigned 64-bit cutoff (Go reports the overflow as a range error, i.e. a
non-nil error, so both failure modes collapse to `none` here). -/
def parseHexAcc : Str → Nat → Option Nat
  | [], acc => some acc
  | c :: rest, acc =>
    match hexVal c with
    | none => none
    | some v => if acc * 16 + v < 2 ^ 64 then parseHexAcc rest (acc * 16 + v) else none

/-- Go `strconv.ParseUint(s, 16, 64)` on the digit part: the empty string is
a syntax error. -/
def parseHexDigits (s : Str) : Option Nat :=
  match s with
  | [] => none
  | _ => parseHexAcc s 0

/-- Go `strconv.ParseInt(s, 16, 64)`: an optional single leading sign
(`+`/`-`), then `ParseUint` on the rest, then the signed 64-bit range check
(range errors are non-nil errors, hence `none`). -/
def goParseInt16 (s : Str) : Option Int :=
  match s with
  | [] => none
  | c :: rest =>
    if c = '+' then
      (parseHexDigits rest).bind fun n =>
        if n ≤ 2 ^ 63 - 1 then some (Int.ofNat n) else none
    else if c = '-' then
      (parseHexDigits rest).bind fun n =>
        if n ≤ 2 ^ 63 then some (-(n : Int)) else none
    else
      (parseHexDigits (c :: rest)).bind fun n =>
        if n ≤ 2 ^ 63 - 1 then some (Int.ofNat n) else none

/-- Go `strings.SplitN(s, ".", 2)[0]`: the part of `s` before the first
`'.'`, or all of `s` when there is none. -/
def splitFirstDot (s : Str) : Str := s.takeWhile (fun c => c ≠ '.')

/-- Go slicing expression `s[a:b]`. -/
def goSlice (s : Str) (a b : Nat) : Str := (s.drop a).take (b - a)

/-- Decimal digit character, `fmt`'s rendering of one digit. -/
def digitChar (n : Nat) : Char := Char.ofNat (48 + n)

def natToStrAux : Nat → Nat → Str
  | 0, _ => []
  | fuel + 1, n =>
    if n < 10 then [digitChar n]
    else natToStrAux fuel (n / 10) ++ [digitChar (n % 10)]

/-- Decimal rendering of a natural number, as `fmt.Sprintf("%d", n)`. -/
def natToStr (n : Nat) : Str := natToStrAux (n + 1) n

/-- Decimal rendering of an integer, as `fmt.Sprintf("%d", i)`. -/
def intToStr (i : Int) : Str :=
  if i < 0 then '-' :: natToStr i.natAbs else natToStr i.toNat

/-- `convertToOBIS` from `client.go`: take the segment of the logical name
before the first `'.'`, require length 12, parse the three 2-character
sub-slices at offsets 4..6, 6..8, 8..10 as base-16 integers and render them
as the decimal string `"C.D.E"`. -/
def convertToOBIS (logicalName : Str) : Option Str :=
  let hex := splitFirstDot logicalName
  if hex.length ≠ 12 then none
  else
    match goParseInt16 (goSlice hex 4 6), goParseInt16 (goSlice hex 6 8),
        goParseInt16 (goSlice hex 8 10) with
    | some c, some d, some e =>
        some (intToStr c ++ '.' :: intToStr d ++ '.' :: intToStr e)
    | _, _, _ => none

def httpPfx : Str := "http://".toList

def httpsPfx : Str := "https://".toList

/-- `defaultScheme` from `client.go`: prepend `scheme + "://"` when the uri
starts with neither `"http://"` nor `"https://"`. -/
def defaultScheme (uri scheme : Str) : Str :=
  if ¬ httpPfx <+: uri ∧ ¬ httpsPfx <+: uri then scheme ++ "://".toList ++ uri
  else uri

/-- Decimal value of a digit string, most significant digit first. -/
def digitsVal (s : Str) : Nat := s.foldl (fun a c => a * 10 + (c.toNat - 48)) 0

/-- Strip an optional single leading sign; the `Bool` records a minus. -/
def splitSign (s : Str) : Bool × Str :=
  match s with
  | [] => (false, [])
  | c :: rest =>
    if c = '+' then (false, rest)
    else if c = '-' then (true, rest)
    else (false, s)

/-- After the integer digits: an optional `'.'` introducing the fractional
digits; returns the fractional digits and the remainder after them. -/
def splitDotDigits (r : Str) : Str × Str :=
  match r with
  | [] => ([], [])
  | c :: rest =>
    if c = '.' then (rest.takeWhile Char.isDigit, rest.dropWhile Char.isDigit)
    else ([], r)

/-- Subset of Go `strconv.ParseFloat(s, 64)` actually exercised by the
client's inputs: an optional sign, a decimal mantissa with an optional
fractional part (at least one digit overall), and an optional decimal
exponent.  Hexadecimal floats, `Inf`/`NaN` spellings, digit-separating
underscores, and the final rounding to `float64` are not modelled; the
result is the exact rational value of the literal. -/
def goParseFloat (s : Str) : Option ℚ :=
  let neg := (splitSign s).1
  let s1 := (splitSign s).2
  let ip := s1.takeWhile Char.isDigit
  let r1 := s1.dropWhile Char.isDigit
  let fp := (splitDotDigits r1).1
  let r2 := (splitDotDigits r1).2
  if ip.length = 0 ∧ fp.length = 0 then none
  else
    let mant : ℚ := (digitsVal ip : ℚ) + (digitsVal fp : ℚ) / (10 : ℚ) ^ fp.length
    let withExp : Option ℚ :=
      match r2 with
      | [] => some mant
      | e :: rest =>
        if e = 'e' ∨ e = 'E' then
          let ed := (splitSign rest).2.takeWhile Char.isDigit
          let r4 := (splitSign rest).2.dropWhile Char.isDigit
          if ed.length = 0 ∨ r4.length ≠ 0 then none
          else
            let ex : Int :=
              if (splitSign rest).1 then -(digitsVal ed : Int) else (digitsVal ed : Int)
            some (mant * (10 : ℚ) ^ ex)
        else none
    withExp.map fun q => if neg then -q else q

/-- One entry of the `values` array of the extended reading document
(`MeterReading.Values` as used by `GetMeterValues`): logical name, raw
decimal value string, scaler exponent, unit code. -/
structure ReadingItem where
  logicalName : Str
  value : Str
  scaler : Int
  unit : Int

/-- The per-item body of `GetMeterValues`'s loop: convert the logical name
to an OBIS key (skip on error), parse the raw value (skip on error), scale
by `10^scaler`, then dispatch on the unit code: 27 W, 30 Wh (divided by
1000 to kWh), 33 A, 35 V, 44 Hz; any other unit code produces no entry. -/
def processItem (item : ReadingItem) : Option (Str × ℚ) :=
  match convertToOBIS item.logicalName with
  | none => none
  | some obis =>
    match goParseFloat item.value with
    | none => none
    | some raw =>
      let val : ℚ := raw * (10 : ℚ) ^ item.scaler
      if item.unit = 27 then some (obis, val)
      else if item.unit = 30 then some (obis, val / 1000)
      else if item.unit = 33 then some (obis, val)
      else if item.unit = 35 then some (obis, val)
      else if item.unit = 44 then some (obis, val)
      else none

/-- The unit codes of `GetMeterValues`'s switch statement. -/
def knownUnits : List Int := [27, 30, 33, 35, 44]

/-- `values[k] = v` on the association-list model of the Go map: drop any
existing binding of `k`, append the new one.  Lookup and size of the result
agree with the Go map. -/
def mapInsert (m : List (Str × ℚ)) (k : Str) (v : ℚ) : List (Str × ℚ) :=
  m.filter (fun p => decide (p.1 ≠ k)) ++ [(k, v)]

/-- `values[k]` (with presence bit) on the association-list model. -/
def mapLookup : List (Str × ℚ) → Str → Option ℚ
  | [], _ => none
  | p :: rest, key => if p.1 = key then some p.2 else mapLookup rest key

/-- One iteration of `GetMeterValues`'s loop over `reading.Values`. -/
def step (m : List (Str × ℚ)) (item : ReadingItem) : List (Str × ℚ) :=
  match processItem item with
  | none => m
  | some (k, v) => mapInsert m k v

/-- The whole loop of `GetMeterValues`, from an arbitrary accumulator. -/
def buildFrom (m : List (Str × ℚ)) (items : List ReadingItem) : List (Str × ℚ) :=
  items.foldl step m

/-- The `values` map built by `GetMeterValues` from the decoded items. -/
def buildMap (items : List ReadingItem) : List (Str × ℚ) :=
  buildFrom [] items

/-- `GetMeterValues` after a successful fetch and top-level decode: run the
loop, then fail (`none`, the "no valid meter values found" error) exactly
when the map is empty. -/
def getMeterValuesPure (items : List ReadingItem) : Option (List (Str × ℚ)) :=
  if (buildMap items).length = 0 then none else some (buildMap items)

/-- The contribution of one reading item to the map entry at key `k`. -/
def contribOf (item : ReadingItem) (k : Str) : Option ℚ :=
  match processItem item with
  | none => none
  | some kv => if kv.1 = k then some kv.2 else none

/-- The value of the last item of the list contributing to key `k`. -/
def lastVal : List ReadingItem → Str → Option ℚ
  | [], _ => none
  | i :: rest, k =>
    match lastVal rest k with
    | some v => some v
    | none => contribOf i k

/-- The contract detail document: only its `SensorDomains` field is used by
`DiscoverMeterID`. -/
structure DerivedContract where
  sensorDomains : List String

/-- The loop of `DiscoverMeterID` over the fetched contract identifiers:
`fetch` abstracts the per-contract `getJSON` call (`none` = failed fetch,
skipped); the first contract with a non-empty sensor-domain list supplies
the meter ID (its first entry); exhaustion is the "no contract with sensor
domains found" error (`none`). -/
def discoverMeterID (fetch : String → Option DerivedContract) :
    List String → Option String
  | [] => none
  | id :: rest =>
    match fetch id with
    | none => discoverMeterID fetch rest
    | some contract =>
      match contract.sensorDomains with
      | [] => discoverMeterID fetch rest
      | d :: _ => some d

/-- A server response as seen by the digest transport: its HTTP status and
the nonce of the challenge it carries (when it is a 401 challenge). -/
structure DigestResponse where
  status : Nat
  nonce : String

/-- Outcome of one request through the digest transport: the surfaced
response, how many times the request went over the wire, and how many
challenge-derived authenticated resends (re-authentication retries) were
performed. -/
structure DigestOutcome where
  resp : DigestResponse
  totalSends : Nat
  authRetries : Nat

/-- Modelled from the spec: the digest authentication transport's
round-trip orchestration (spec section 4.1); its source is not part of the
files under study, only its construction site in `client.go` is.  `server n`
is the response to the n-th send of this request.  With a cached challenge
the request is first sent with cached credentials; a 401 (fresh challenge)
invalidates the cache and falls through to the uncached path, which sends
unauthenticated, and on a 401 challenge computes credentials and resends
exactly once, surfacing whatever that resend returns; a non-401 response is
surfaced directly at every stage.  The function is structurally free of
loops: no response can cause more than the single authenticated resend. -/
def digestRoundTrip (cached : Bool) (server : Nat → DigestResponse) : DigestOutcome :=
  if cached then
    let r0 := server 0
    if r0.status = 401 then
      let r1 := server 1
      if r1.status = 401 then ⟨server 2, 3, 1⟩ else ⟨r1, 2, 0⟩
    else ⟨r0, 1, 0⟩
  else
    let r0 := server 0
    if r0.status = 401 then ⟨server 1, 2, 1⟩ else ⟨r0, 1, 0⟩

/-- Character of the pre-dot segment at index `i` (blank past the end). -/
def segChar (s : Str) (i : Nat) : Char := (splitFirstDot s).getD i ' '

/-- Base-16 digit value of the segment character at index `i`. -/
def segHex (s : Str) (i : Nat) : Nat := (hexVal (segChar s i)).getD 0

/-- The OBIS component encoded by the segment characters at `i`, `i+1`. -/
def obisComponent (s : Str) (i : Nat) : Nat := 16 * segHex s i + segHex s (i + 1)

/-- Two characters that are equal up to ASCII letter case. -/
def caseEq (c d : Char) : Prop :=
  c = d
  ∨ (65 ≤ c.toNat ∧ c.toNat ≤ 90 ∧ d.toNat = c.toNat + 32)
  ∨ (65 ≤ d.toNat ∧ d.toNat ≤ 90 ∧ c.toNat = d.toNat + 32)

lemma hexValN_le {n v : Nat} (h : hexValN n = some v) : v ≤ 15 := by
  unfold hexValN at h
  split_ifs at h <;> simp_all <;> omega

lemma hexVal_le {c : Char} {v : Nat} (h : hexVal c = some v) : v ≤ 15 :=
  hexValN_le h

lemma hexVal_ne_sign {c : Char} {v : Nat} (h : hexVal c = some v) :
    c ≠ '+' ∧ c ≠ '-' := by
  constructor <;> rintro rfl <;> simp [hexVal, hexValN] at h

lemma parseHexDigits_cons (c : Char) (s : Str) :
    parseHexDigits (c :: s) = parseHexAcc (c :: s) 0 := rfl

lemma goParseInt16_pair {a b : Char} {va vb : Nat}
    (ha : hexVal a = some va) (hb : hexVal b = some vb) :
    goParseInt16 [a, b] = some (Int.ofNat (16 * va + vb)) := by
  have hva := hexVal_le ha
  have hvb := hexVal_le hb
  obtain ⟨hane, hane'⟩ := hexVal_ne_sign ha
  show (if a = '+' then _ else if a = '-' then _ else
      (parseHexDigits (a :: [b])).bind fun n =>
        if n ≤ 2 ^ 63 - 1 then some (Int.ofNat n) else none) = _
  rw [if_neg hane, if_neg hane', parseHexDigits_cons]
  show (parseHexAcc (a :: [b]) 0).bind _ = _
  simp only [parseHexAcc, ha, hb]
  rw [if_pos (by omega)]
  rw [if_pos (by omega)]
  simp only [Option.some_bind]
  rw [if_pos (by omega)]
  congr 2
  omega

lemma goSlice_pair (l : Str) (i : Nat) (h : i + 1 < l.length) :
    goSlice l i (i + 2) = [l[i], l[i + 1]] := by
  have h0 : i < l.length := by omega
  unfold goSlice
  have h2 : i + 2 - i = 2 := by omega
  rw [h2, List.drop_eq_getElem_cons h0, List.take_succ_cons,
    List.drop_eq_getElem_cons h, List.take_succ_cons, List.take_zero]

lemma intToStr_ofNat (n : Nat) : intToStr (Int.ofNat n) = natToStr n := by
  unfold intToStr
  rw [if_neg (by show ¬ ((n : Int) < 0); omega)]
  rfl

instance caseEqDec : DecidableRel caseEq := fun c d => by
  unfold caseEq
  infer_instance

lemma hexValN_shift {n : Nat} (h1 : 65 ≤ n) (h2 : n ≤ 90) :
    hexValN n = hexValN (n + 32) := by
  unfold hexValN
  split_ifs <;> first | rfl | omega

lemma caseEq_hexVal {c d : Char} (h : caseEq c d) : hexVal c = hexVal d := by
  rcases h with rfl | ⟨h1, h2, h3⟩ | ⟨h1, h2, h3⟩
  · rfl
  · show hexValN c.toNat = hexValN d.toNat
    rw [h3]
    exact hexValN_shift h1 h2
  · show hexValN c.toNat = hexValN d.toNat
    rw [h3]
    exact (hexValN_shift h1 h2).symm

lemma caseEq_dot {c d : Char} (h : caseEq c d) : c = '.' ↔ d = '.' := by
  have h46 : Char.toNat '.' = 46 := by decide
  rcases h with rfl | ⟨h1, h2, h3⟩ | ⟨h1, h2, h3⟩
  · exact Iff.rfl
  · constructor
    · rintro rfl
      exact absurd h1 (by decide)
    · rintro rfl
      rw [h46] at h3
      exfalso
      omega
  · constructor
    · rintro rfl
      rw [h46] at h3
      exfalso
      omega
    · rintro rfl
      exact absurd h1 (by decide)

lemma forall₂_splitFirstDot {s t : Str} (h : List.Forall₂ caseEq s t) :
    List.Forall₂ caseEq (splitFirstDot s) (splitFirstDot t) := by
  unfold splitFirstDot
  induction h with
  | nil => exact List.Forall₂.nil
  | cons hcd hrest ih =>
    rename_i a b l₁ l₂
    by_cases hdot : a = '.'
    · have hbdot : b = '.' := (caseEq_dot hcd).mp hdot
      subst hdot hbdot
      simp [List.takeWhile_cons]
    · have hbdot : b ≠ '.' := fun hb => hdot ((caseEq_dot hcd).mpr hb)
      rw [List.takeWhile_cons, List.takeWhile_cons, if_pos (by simpa using hdot),
        if_pos (by simpa using hbdot)]
      exact List.Forall₂.cons hcd ih

lemma convertToOBIS_all_hex {s : Str} (h12 : (splitFirstDot s).length = 12)
    (hhex : ∀ c ∈ splitFirstDot s, (hexVal c).isSome) :
    convertToOBIS s =
      some (natToStr (obisComponent s 4) ++ '.' :: natToStr (obisComponent s 6)
        ++ '.' :: natToStr (obisComponent s 8)) := by
  unfold convertToOBIS
  set seg := splitFirstDot s with hseg
  have hmem : ∀ i (h : i < seg.length), ∃ v, hexVal seg[i] = some v := fun i h =>
    Option.isSome_iff_exists.mp (hhex _ (List.getElem_mem h))
  obtain ⟨v4, hv4⟩ := hmem 4 (by omega)
  obtain ⟨v5, hv5⟩ := hmem 5 (by omega)
  obtain ⟨v6, hv6⟩ := hmem 6 (by omega)
  obtain ⟨v7, hv7⟩ := hmem 7 (by omega)
  obtain ⟨v8, hv8⟩ := hmem 8 (by omega)
  obtain ⟨v9, hv9⟩ := hmem 9 (by omega)
  have e4 : goSlice seg 4 6 = [seg[4], seg[5]] := by
    have h := goSlice_pair seg 4 (by omega)
    norm_num at h
    exact h
  have e6 : goSlice seg 6 8 = [seg[6], seg[7]] := by
    have h := goSlice_pair seg 6 (by omega)
    norm_num at h
    exact h
  have e8 : goSlice seg 8 10 = [seg[8], seg[9]] := by
    have h := goSlice_pair seg 8 (by omega)
    norm_num at h
    exact h
  have hcomp : ∀ i (h1 : i < 12) (h2 : i + 1 < 12) (vi vj : Nat),
      hexVal seg[i] = some vi → hexVal seg[i + 1] = some vj →
      obisComponent s i = 16 * vi + vj := by
    intro i h1 h2 vi vj hvi hvj
    unfold obisComponent segHex segChar
    rw [← hseg, List.getD_eq_getElem _ _ (by omega), List.getD_eq_getElem _ _ (by omega),
      hvi, hvj]
    rfl
  have c4 : obisComponent s 4 = 16 * v4 + v5 := by
    have h := hcomp 4 (by omega) (by omega) v4 v5 hv4 (by simpa using hv5)
    simpa using h
  have c6 : obisComponent s 6 = 16 * v6 + v7 := by
    have h := hcomp 6 (by omega) (by omega) v6 v7 hv6 (by simpa using hv7)
    simpa using h
  have c8 : obisComponent s 8 = 16 * v8 + v9 := by
    have h := hcomp 8 (by omega) (by omega) v8 v9 hv8 (by simpa using hv9)
    simpa using h
  rw [if_neg (by omega)]
  simp only [e4, e6, e8, goParseInt16_pair hv4 hv5, goParseInt16_pair hv6 hv7,
    goParseInt16_pair hv8 hv9, intToStr_ofNat]
  rw [c4, c6, c8]

/-- Claim C1: for every logical name whose pre-dot segment is exactly 12
hexadecimal characters, `convertToOBIS` succeeds and returns the decimal
string `"C.D.E"` built from the three 2-character hex sub-ranges at offsets
4..6, 6..8 and 8..10, and the result is unchanged when any letters of the
input are replaced by their other case (`caseEq` relates characters equal
up to ASCII case). -/
theorem convertToOBIS_valid_hex_and_case_insensitive (s t : Str)
    (h12 : (splitFirstDot s).length = 12)
    (hhex : ∀ c ∈ splitFirstDot s, (hexVal c).isSome)
    (hcase : List.Forall₂ caseEq s t) :
    convertToOBIS s =
      some (natToStr (obisComponent s 4) ++ '.' :: natToStr (obisComponent s 6)
        ++ '.' :: natToStr (obisComponent s 8))
    ∧ convertToOBIS t = convertToOBIS s := by
  have hseg2 := forall₂_splitFirstDot hcase
  have hlen := hseg2.length_eq
  have ht12 : (splitFirstDot t).length = 12 := by omega
  have hget := (List.forall₂_iff_get.mp hseg2).2
  have hpt : ∀ i (h1 : i < (splitFirstDot s).length) (h2 : i < (splitFirstDot t).length),
      hexVal (splitFirstDot t)[i] = hexVal (splitFirstDot s)[i] := by
    intro i h1 h2
    exact (caseEq_hexVal (hget i h1 h2)).symm
  have hhex_t : ∀ c ∈ splitFirstDot t, (hexVal c).isSome := by
    intro c hc
    obtain ⟨i, hi, rfl⟩ := List.mem_iff_getElem.mp hc
    rw [hpt i (by omega) hi]
    exact hhex _ (List.getElem_mem (by omega))
  have hcompeq : ∀ i, i < 11 → obisComponent t i = obisComponent s i := by
    intro i hi
    unfold obisComponent segHex segChar
    rw [List.getD_eq_getElem _ _ (by omega), List.getD_eq_getElem _ _ (by omega),
      List.getD_eq_getElem _ _ (show i < (splitFirstDot s).length by omega),
      List.getD_eq_getElem _ _ (show i + 1 < (splitFirstDot s).length by omega),
      hpt i (by omega) (by omega), hpt (i + 1) (by omega) (by omega)]
  refine ⟨convertToOBIS_all_hex h12 hhex, ?_⟩
  rw [convertToOBIS_all_hex ht12 hhex_t, convertToOBIS_all_hex h12 hhex,
    hcompeq 4 (by omega), hcompeq 6 (by omega), hcompeq 8 (by omega)]

/-- Witness for C1 at the logical name `0000010800FF.1.0.255` (OBIS 1.8.0)
and its lower-cased variant. -/
theorem convertToOBIS_valid_hex_case_witness :
    convertToOBIS "0000010800FF.1.0.255".toList = some "1.8.0".toList
    ∧ convertToOBIS "0000010800ff.1.0.255".toList
      = convertToOBIS "0000010800FF.1.0.255".toList := by
  have h := convertToOBIS_valid_hex_and_case_insensitive
    "0000010800FF.1.0.255".toList "0000010800ff.1.0.255".toList
    (by decide) (by decide) (by decide)
  refine ⟨?_, h.2⟩
  rw [h.1]
  decide

lemma goSlice_of_window (l : Str) :
    goSlice l 4 6 = ((l.drop 4).take 6).take 2
    ∧ goSlice l 6 8 = (((l.drop 4).take 6).drop 2).take 2
    ∧ goSlice l 8 10 = (((l.drop 4).take 6).drop 4).take 2 := by
  refine ⟨?_, ?_, ?_⟩ <;>
    simp [goSlice, List.drop_take, List.drop_drop, List.take_take]

/-- Claim C8: `convertToOBIS` reads only characters 4..9 of the pre-dot
segment: two logical names with 12-character segments agreeing on that
window produce identical results. -/
theorem convertToOBIS_reads_only_window (s t : Str)
    (hs : (splitFirstDot s).length = 12) (ht : (splitFirstDot t).length = 12)
    (hagree : ((splitFirstDot s).drop 4).take 6 = ((splitFirstDot t).drop 4).take 6) :
    convertToOBIS s = convertToOBIS t := by
  unfold convertToOBIS
  rw [if_neg (by omega), if_neg (by omega),
    (goSlice_of_window (splitFirstDot s)).1, (goSlice_of_window (splitFirstDot s)).2.1,
    (goSlice_of_window (splitFirstDot s)).2.2, (goSlice_of_window (splitFirstDot t)).1,
    (goSlice_of_window (splitFirstDot t)).2.1, (goSlice_of_window (splitFirstDot t)).2.2,
    hagree]

/-- Witness for C8: two logical names agreeing only on characters 4..9. -/
theorem convertToOBIS_reads_only_window_witness :
    convertToOBIS "AAAA010800BB".toList = convertToOBIS "CCCC010800DD".toList :=
  convertToOBIS_reads_only_window "AAAA010800BB".toList "CCCC010800DD".toList
    (by decide) (by decide) (by decide)

lemma parseHexDigits_single (b : Char) : parseHexDigits [b] = hexVal b := by
  rcases hb : hexVal b with _ | vb
  · show parseHexAcc [b] 0 = none
    simp only [parseHexAcc, hb]
  · show parseHexAcc [b] 0 = some vb
    have := hexVal_le hb
    simp only [parseHexAcc, hb]
    rw [if_pos (by omega)]
    congr 1
    omega

lemma processItem_none_of_obis {item : ReadingItem}
    (h : convertToOBIS item.logicalName = none) : processItem item = none := by
  unfold processItem
  rw [h]

lemma processItem_none_of_unit {item : ReadingItem} (h : item.unit ∉ knownUnits) :
    processItem item = none := by
  simp only [knownUnits, List.mem_cons, List.not_mem_nil, or_false, not_or] at h
  obtain ⟨h27, h30, h33, h35, h44⟩ := h
  unfold processItem
  rcases convertToOBIS item.logicalName with _ | obis
  · rfl
  · rcases goParseFloat item.value with _ | raw
    · rfl
    · simp only [if_neg h27, if_neg h30, if_neg h33, if_neg h35, if_neg h44]

lemma processItem_some_unit {item : ReadingItem} {x : Str × ℚ}
    (h : processItem item = some x) : item.unit ∈ knownUnits := by
  by_contra hu
  rw [processItem_none_of_unit hu] at h
  exact Option.noConfusion h

lemma step_of_none {item : ReadingItem} (h : processItem item = none)
    (m : List (Str × ℚ)) : step m item = m := by
  unfold step
  rw [h]

lemma buildFrom_skip {item : ReadingItem} (h : processItem item = none)
    (m : List (Str × ℚ)) (pre post : List ReadingItem) :
    buildFrom m (pre ++ item :: post) = buildFrom m (pre ++ post) := by
  unfold buildFrom
  rw [List.foldl_append, List.foldl_append, List.foldl_cons, step_of_none h]

/-- Claim C2 counterexample: the logical name `aaaa+1+2+3aa` has a 12
character pre-dot segment that is not 12 hexadecimal characters (positions
4, 6 and 8 hold `'+'`), yet `convertToOBIS` accepts it: Go's
`strconv.ParseInt` tolerates a leading sign in each 2-character slice. -/
theorem convertToOBIS_sign_counterexample :
    (splitFirstDot "aaaa+1+2+3aa".toList).length = 12
    ∧ ¬ (∀ c ∈ splitFirstDot "aaaa+1+2+3aa".toList, (hexVal c).isSome)
    ∧ convertToOBIS "aaaa+1+2+3aa".toList = some "1.2.3".toList := by
  refine ⟨by decide, by decide, by decide⟩

/-- Claim C2 (amended): `convertToOBIS` rejects every logical name whose
pre-dot segment does not have exactly 12 characters, and accepts a
12-character segment exactly when each of the three 2-character slices at
offsets 4..6, 6..8, 8..10 parses as a Go base-16 integer — i.e. is either a
pair of hex digits or a sign (`'+'`/`'-'`) followed by one hex digit; in
particular segments with other non-hex characters in those positions are
rejected.  Rejected items are skipped by `GetMeterValues` without affecting
the rest of the fetch. -/
theorem convertToOBIS_reject_and_skip (s : Str) (a b : Char)
    (pre post : List ReadingItem) (item : ReadingItem) :
    ((splitFirstDot s).length ≠ 12 → convertToOBIS s = none)
    ∧ ((convertToOBIS s).isSome ↔
        (splitFirstDot s).length = 12
        ∧ (goParseInt16 (goSlice (splitFirstDot s) 4 6)).isSome
        ∧ (goParseInt16 (goSlice (splitFirstDot s) 6 8)).isSome
        ∧ (goParseInt16 (goSlice (splitFirstDot s) 8 10)).isSome)
    ∧ ((goParseInt16 [a, b]).isSome ↔
        ((hexVal a).isSome ∨ a = '+' ∨ a = '-') ∧ (hexVal b).isSome)
    ∧ (convertToOBIS item.logicalName = none →
        getMeterValuesPure (pre ++ item :: post) = getMeterValuesPure (pre ++ post)) := by
  refine ⟨?_, ?_, ?_, ?_⟩
  · intro h
    unfold convertToOBIS
    rw [if_pos h]
  · unfold convertToOBIS
    by_cases h : (splitFirstDot s).length = 12
    · rw [if_neg (by omega)]
      rcases goParseInt16 (goSlice (splitFirstDot s) 4 6) with _ | c <;>
        rcases goParseInt16 (goSlice (splitFirstDot s) 6 8) with _ | d <;>
        rcases goParseInt16 (goSlice (splitFirstDot s) 8 10) with _ | e <;>
        simp [h]
    · rw [if_pos h]
      simp [h]
  · by_cases hp : a = '+'
    · subst hp
      show ((parseHexDigits [b]).bind fun n =>
        if n ≤ 2 ^ 63 - 1 then some (Int.ofNat n) else none).isSome ↔ _
      rw [parseHexDigits_single]
      rcases hb : hexVal b with _ | vb
      · simp
      · have := hexVal_le hb
        simp only [Option.some_bind]
        rw [if_pos (by omega)]
        simp
    · by_cases hm : a = '-'
      · subst hm
        show ((parseHexDigits [b]).bind fun n =>
          if n ≤ 2 ^ 63 then some (-(n : Int)) else none).isSome ↔ _
        rw [parseHexDigits_single]
        rcases hb : hexVal b with _ | vb
        · simp
        · have := hexVal_le hb
          simp only [Option.some_bind]
          rw [if_pos (by omega)]
          simp
      · show ((if a = '+' then (parseHexDigits [b]).bind fun n =>
              if n ≤ 2 ^ 63 - 1 then some (Int.ofNat n) else none
            else if a = '-' then (parseHexDigits [b]).bind fun n =>
              if n ≤ 2 ^ 63 then some (-(n : Int)) else none
            else (parseHexDigits (a :: [b])).bind fun n =>
              if n ≤ 2 ^ 63 - 1 then some (Int.ofNat n) else none)).isSome ↔ _
        rw [if_neg hp, if_neg hm,
          show parseHexDigits (a :: [b]) = parseHexAcc [a, b] 0 from rfl]
        rcases ha : hexVal a with _ | va
        · simp only [parseHexAcc, ha]
          simp [ha, hp, hm]
        · have hva := hexVal_le ha
          rcases hb : hexVal b with _ | vb
          · simp only [parseHexAcc, ha, hb]
            rw [if_pos (by omega)]
            simp [ha, hb]
          · have hvb := hexVal_le hb
            simp only [parseHexAcc, ha, hb]
            rw [if_pos (by omega), if_pos (by omega)]
            simp only [Option.some_bind]
            rw [if_pos (by omega)]
            simp [ha, hb]
  · intro h
    unfold getMeterValuesPure buildMap
    rw [buildFrom_skip (processItem_none_of_obis h)]

/-- Witness for C2 (amended): a short segment is rejected, a stray letter in
the window is rejected, and a rejected item is dropped without affecting
the other items of the fetch. -/
theorem convertToOBIS_reject_and_skip_witness :
    convertToOBIS "00000108".toList = none
    ∧ convertToOBIS "0000g10800FF".toList = none
    ∧ getMeterValuesPure
        [⟨"bad".toList, "1".toList, 0, 27⟩, ⟨"0000010800FF".toList, "1".toList, 0, 27⟩]
      = getMeterValuesPure [⟨"0000010800FF".toList, "1".toList, 0, 27⟩] := by
  have h1 := (convertToOBIS_reject_and_skip "00000108".toList 'a' 'a' [] []
    ⟨"bad".toList, "1".toList, 0, 27⟩).1 (by decide)
  have h2 := (convertToOBIS_reject_and_skip "0000g10800FF".toList 'a' 'a' [] []
    ⟨"bad".toList, "1".toList, 0, 27⟩).2.1
  have h3 := (convertToOBIS_reject_and_skip "x".toList 'a' 'a' []
    [⟨"0000010800FF".toList, "1".toList, 0, 27⟩]
    ⟨"bad".toList, "1".toList, 0, 27⟩).2.2.2 (by decide)
  refine ⟨h1, ?_, h3⟩
  by_contra hne
  rcases ho : convertToOBIS "0000g10800FF".toList with _ | v
  · exact hne ho
  · have : (convertToOBIS "0000g10800FF".toList).isSome := by rw [ho]; rfl
    rw [h2] at this
    exact absurd this.2.1 (by decide)

lemma mapInsert_ne_nil (m : List (Str × ℚ)) (k : Str) (v : ℚ) :
    mapInsert m k v ≠ [] := by
  unfold mapInsert
  simp

lemma buildFrom_cons (m : List (Str × ℚ)) (i : ReadingItem) (rest : List ReadingItem) :
    buildFrom m (i :: rest) = buildFrom (step m i) rest := rfl

lemma buildFrom_nil_iff (items : List ReadingItem) :
    ∀ m : List (Str × ℚ),
      buildFrom m items = [] ↔ m = [] ∧ ∀ item ∈ items, processItem item = none := by
  induction items with
  | nil =>
    intro m
    simp [buildFrom]
  | cons i rest ih =>
    intro m
    rw [buildFrom_cons, ih]
    rcases hp : processItem i with _ | kv
    · rw [step_of_none hp]
      constructor
      · rintro ⟨h1, h2⟩
        refine ⟨h1, ?_⟩
        intro it hit
        rcases List.mem_cons.mp hit with rfl | hmem
        · exact hp
        · exact h2 it hmem
      · rintro ⟨h1, h2⟩
        exact ⟨h1, fun it hit => h2 it (List.mem_cons_of_mem i hit)⟩
    · obtain ⟨k, v⟩ := kv
      have hstep : step m i = mapInsert m k v := by
        unfold step
        rw [hp]
      rw [hstep]
      constructor
      · rintro ⟨h1, _⟩
        exact absurd h1 (mapInsert_ne_nil m k v)
      · rintro ⟨_, h2⟩
        have := h2 i (List.mem_cons_self i rest)
        rw [hp] at this
        exact Option.noConfusion this

lemma mapLookup_cons (p : Str × ℚ) (rest : List (Str × ℚ)) (key : Str) :
    mapLookup (p :: rest) key = if p.1 = key then some p.2 else mapLookup rest key := rfl

lemma lookup_mapInsert (m : List (Str × ℚ)) (k : Str) (v : ℚ) (key : Str) :
    mapLookup (mapInsert m k v) key = if key = k then some v else mapLookup m key := by
  induction m with
  | nil =>
    show mapLookup [(k, v)] key = _
    rw [mapLookup_cons]
    by_cases h : key = k
    · subst h
      simp
    · rw [if_neg (fun hh => h hh.symm), if_neg h]
  | cons p rest ih =>
    unfold mapInsert at ih ⊢
    rw [List.filter_cons]
    by_cases hpk : p.1 = k
    · rw [if_neg (by simp [hpk])]
      rw [ih]
      by_cases h : key = k
      · rw [if_pos h, if_pos h]
      · rw [if_neg h, if_neg h, mapLookup_cons,
          if_neg (by rw [hpk]; exact fun hh => h hh.symm)]
    · rw [if_pos (by simp [hpk])]
      show mapLookup (p :: (List.filter _ rest ++ [(k, v)])) key = _
      rw [mapLookup_cons]
      by_cases hpkey : p.1 = key
      · rw [if_pos hpkey, if_neg (fun hh : key = k => hpk (hpkey.trans hh)),
          mapLookup_cons, if_pos hpkey]
      · rw [if_neg hpkey, ih]
        by_cases h : key = k
        · rw [if_pos h, if_pos h]
        · rw [if_neg h, if_neg h, mapLookup_cons, if_neg hpkey]

lemma lookup_buildFrom (items : List ReadingItem) (k : Str) :
    ∀ m, mapLookup (buildFrom m items) k =
      match lastVal items k with
      | some v => some v
      | none => mapLookup m k := by
  induction items with
  | nil =>
    intro m
    rfl
  | cons i rest ih =>
    intro m
    rw [buildFrom_cons, ih]
    show _ = (match (match lastVal rest k with
      | some v => some v
      | none => contribOf i k) with
      | some v => some v
      | none => mapLookup m k)
    rcases hl : lastVal rest k with _ | v
    · rcases hc : contribOf i k with _ | v
      · unfold contribOf at hc
        rcases hp : processItem i with _ | kv
        · rw [step_of_none hp]
        · simp only [hp] at hc
          have hkk : kv.1 ≠ k := by
            intro hh
            rw [if_pos hh] at hc
            exact Option.noConfusion hc
          have hstep : step m i = mapInsert m kv.1 kv.2 := by
            unfold step
            rw [hp]
          rw [hstep, lookup_mapInsert, if_neg (fun hh => hkk hh.symm)]
      · unfold contribOf at hc
        rcases hp : processItem i with _ | kv
        · exact Option.noConfusion (by simpa only [hp] using hc)
        · simp only [hp] at hc
          have hkk : kv.1 = k := by
            by_contra hh
            rw [if_neg hh] at hc
            exact Option.noConfusion hc
          have hv : kv.2 = v := by
            rw [if_pos hkk] at hc
            exact Option.some.inj hc
          have hstep : step m i = mapInsert m kv.1 kv.2 := by
            unfold step
            rw [hp]
          rw [hstep, lookup_mapInsert, if_pos hkk.symm, hv]
    · rfl

lemma keys_nodup_mapInsert {m : List (Str × ℚ)} (h : (m.map Prod.fst).Nodup)
    (k : Str) (v : ℚ) : ((mapInsert m k v).map Prod.fst).Nodup := by
  unfold mapInsert
  rw [List.map_append]
  refine List.Nodup.append ?_ (by simp) ?_
  · exact h.sublist (List.Sublist.map Prod.fst (List.filter_sublist m))
  · intro x hx hx2
    simp only [List.map_cons, List.map_nil, List.mem_singleton] at hx2
    subst hx2
    simp only [List.mem_map, List.mem_filter] at hx
    obtain ⟨p, ⟨_, hpk⟩, hpx⟩ := hx
    rw [decide_eq_true_eq] at hpk
    exact hpk hpx

lemma keys_nodup_buildFrom (items : List ReadingItem) :
    ∀ m, (m.map Prod.fst).Nodup → ((buildFrom m items).map Prod.fst).Nodup := by
  induction items with
  | nil =>
    intro m h
    exact h
  | cons i rest ih =>
    intro m h
    rw [buildFrom_cons]
    refine ih _ ?_
    rcases hp : processItem i with _ | kv
    · rw [step_of_none hp]
      exact h
    · have hstep : step m i = mapInsert m kv.1 kv.2 := by
        unfold step
        rw [hp]
      rw [hstep]
      exact keys_nodup_mapInsert h kv.1 kv.2

lemma mem_mapInsert {m : List (Str × ℚ)} {k : Str} {v : ℚ} {e : Str × ℚ}
    (h : e ∈ mapInsert m k v) : e ∈ m ∨ e = (k, v) := by
  unfold mapInsert at h
  rcases List.mem_append.mp h with hm | hs
  · exact Or.inl (List.mem_of_mem_filter hm)
  · simp only [List.mem_singleton] at hs
    exact Or.inr hs

lemma mem_buildFrom (items : List ReadingItem) :
    ∀ m (e : Str × ℚ), e ∈ buildFrom m items →
      e ∈ m ∨ ∃ item ∈ items, processItem item = some e := by
  induction items with
  | nil =>
    intro m e he
    exact Or.inl he
  | cons i rest ih =>
    intro m e he
    rw [buildFrom_cons] at he
    rcases ih _ e he with hm | ⟨it, hit, hp⟩
    · rcases hpi : processItem i with _ | kv
      · rw [step_of_none hpi] at hm
        exact Or.inl hm
      · have hstep : step m i = mapInsert m kv.1 kv.2 := by
          unfold step
          rw [hpi]
        rw [hstep] at hm
        rcases mem_mapInsert hm with hm2 | rfl
        · exact Or.inl hm2
        · exact Or.inr ⟨i, List.mem_cons_self i rest, by rw [hpi]⟩
    · exact Or.inr ⟨it, List.mem_cons_of_mem i hit, hp⟩

lemma goParseFloat_digits {s : Str} (hne : s ≠ []) (hd : ∀ c ∈ s, c.isDigit) :
    goParseFloat s = some ((digitsVal s : ℚ)) := by
  obtain ⟨c, rest, rfl⟩ : ∃ c rest, s = c :: rest := by
    cases s with
    | nil => exact absurd rfl hne
    | cons c rest => exact ⟨c, rest, rfl⟩
  have hc := hd c (List.mem_cons_self c rest)
  have hsign : splitSign (c :: rest) = (false, c :: rest) := by
    have h1 : c ≠ '+' := fun hh => by rw [hh] at hc; exact absurd hc (by decide)
    have h2 : c ≠ '-' := fun hh => by rw [hh] at hc; exact absurd hc (by decide)
    simp only [splitSign, if_neg h1, if_neg h2]
  unfold goParseFloat
  simp only [hsign, List.takeWhile_eq_self_iff.mpr hd, List.dropWhile_eq_nil_iff.mpr hd,
    splitDotDigits]
  rw [if_neg (by simp)]
  have h0 : digitsVal [] = 0 := rfl
  simp [h0]

/-- Claim C3: `GetMeterValues` converts a surviving item's value as
`raw * 10 ^ scaler`, divided by 1000 for unit code 30 (Wh to kWh) and
unchanged for unit code 27 (W). -/
theorem getMeterValues_conversion (ln val : Str) (scaler : Int) (obis : Str) (raw : ℚ)
    (hobis : convertToOBIS ln = some obis) (hraw : goParseFloat val = some raw) :
    processItem ⟨ln, val, scaler, 30⟩ = some (obis, raw * (10 : ℚ) ^ scaler / 1000)
    ∧ processItem ⟨ln, val, scaler, 27⟩ = some (obis, raw * (10 : ℚ) ^ scaler) := by
  constructor
  · unfold processItem
    simp only [hobis, hraw]
    norm_num
  · unfold processItem
    simp only [hobis, hraw]
    norm_num

/-- Witness for C3: unit 30, scaler 2, raw `"150"` yields 15; unit 27,
scaler 0, raw `"2345"` yields 2345 (logical name `0000010800FF`, OBIS
`1.8.0`). -/
theorem getMeterValues_conversion_witness :
    processItem ⟨"0000010800FF".toList, "150".toList, 2, 30⟩ = some ("1.8.0".toList, 15)
    ∧ processItem ⟨"0000010800FF".toList, "2345".toList, 0, 27⟩
      = some ("1.8.0".toList, 2345) := by
  have hd150 : digitsVal "150".toList = 150 := by decide
  have hd2345 : digitsVal "2345".toList = 2345 := by decide
  have h150 : goParseFloat "150".toList = some 150 := by
    rw [goParseFloat_digits (by decide) (by decide), hd150]
    norm_num
  have h2345 : goParseFloat "2345".toList = some 2345 := by
    rw [goParseFloat_digits (by decide) (by decide), hd2345]
    norm_num
  constructor
  · rw [(getMeterValues_conversion "0000010800FF".toList "150".toList 2
      "1.8.0".toList 150 (by decide) h150).1]
    norm_num
  · rw [(getMeterValues_conversion "0000010800FF".toList "2345".toList 0
      "1.8.0".toList 2345 (by decide) h2345).2]
    norm_num

/-- Claim C4: items with a unit code outside 27, 30, 33, 35, 44 are
excluded from the result without error; every entry of the result comes
from an item with a known unit code. -/
theorem getMeterValues_unknown_units (item : ReadingItem) (items : List ReadingItem)
    (m : List (Str × ℚ)) (k : Str) (v : ℚ) :
    (item.unit ∉ knownUnits → processItem item = none)
    ∧ (getMeterValuesPure items = some m → (k, v) ∈ m →
        ∃ it ∈ items, it.unit ∈ knownUnits ∧ processItem it = some (k, v)) := by
  refine ⟨fun h => processItem_none_of_unit h, ?_⟩
  intro hm hkv
  have hmm : m = buildMap items := by
    unfold getMeterValuesPure at hm
    split_ifs at hm with h
    exact (Option.some.inj hm).symm
  subst hmm
  rcases mem_buildFrom items [] (k, v) hkv with hin | ⟨it, hit, hp⟩
  · exact absurd hin (List.not_mem_nil _)
  · exact ⟨it, hit, processItem_some_unit hp, hp⟩

/-- Witness for C4: an item with unit code 99 contributes nothing. -/
theorem getMeterValues_unknown_units_witness :
    processItem ⟨"0000010800FF".toList, "1".toList, 0, 99⟩ = none :=
  (getMeterValues_unknown_units ⟨"0000010800FF".toList, "1".toList, 0, 99⟩
    [] [] [] 0).1 (by decide)

/-- Claim C5: after a successful fetch and decode, `GetMeterValues` fails
(with the no-data error) exactly when no item survives per-item validation;
in particular a response whose items all carry unrecognized unit codes
fails, and per-item decode failures alone never fail the operation. -/
theorem getMeterValues_noData_iff (items : List ReadingItem) :
    (getMeterValuesPure items = none ↔ ∀ item ∈ items, processItem item = none)
    ∧ ((∀ item ∈ items, item.unit ∉ knownUnits) → getMeterValuesPure items = none) := by
  have hmain : getMeterValuesPure items = none ↔ ∀ item ∈ items, processItem item = none := by
    unfold getMeterValuesPure
    constructor
    · intro h
      split_ifs at h with hb
      exact ((buildFrom_nil_iff items []).mp (List.length_eq_zero.mp hb)).2
    · intro h
      have hnil : buildMap items = [] := (buildFrom_nil_iff items []).mpr ⟨rfl, h⟩
      rw [if_pos (by rw [hnil]; rfl)]
  exact ⟨hmain, fun h => hmain.mpr fun item hit => processItem_none_of_unit (h item hit)⟩

/-- Witness for C5: a reading whose only items have unit code 99 yields the
no-data error rather than an empty success. -/
theorem getMeterValues_noData_iff_witness :
    getMeterValuesPure [⟨"0000010800FF".toList, "1".toList, 0, 99⟩,
      ⟨"0000100700FF".toList, "2".toList, 0, 98⟩] = none :=
  (getMeterValues_noData_iff [⟨"0000010800FF".toList, "1".toList, 0, 99⟩,
    ⟨"0000100700FF".toList, "2".toList, 0, 98⟩]).2 (by decide)

/-- Claim C9: when several items decode to the same OBIS key, the result
map holds the converted value of the last such item in document order, the
map never holds duplicate keys, and the presence of any contributing item
means the operation succeeds (no error). -/
theorem getMeterValues_last_wins (items : List ReadingItem) (k : Str) :
    mapLookup (buildMap items) k = lastVal items k
    ∧ ((buildMap items).map Prod.fst).Nodup
    ∧ ((lastVal items k).isSome → getMeterValuesPure items = some (buildMap items)) := by
  have hlook : mapLookup (buildMap items) k = lastVal items k := by
    unfold buildMap
    rw [lookup_buildFrom items k []]
    rcases lastVal items k with _ | v
    · rfl
    · rfl
  refine ⟨hlook, keys_nodup_buildFrom items [] (by simp), ?_⟩
  intro hsome
  unfold getMeterValuesPure
  rw [if_neg ?_]
  intro hlen
  have hnil : buildMap items = [] := List.length_eq_zero.mp hlen
  rw [hnil] at hlook
  rcases hl : lastVal items k with _ | v
  · rw [hl] at hsome
    exact Bool.noConfusion hsome
  · rw [hl] at hlook
    exact Option.noConfusion hlook

/-- Witness for C9: two items decoding to the same OBIS key `1.8.0`; the
lookup equals the later item's contribution and the fetch succeeds. -/
theorem getMeterValues_last_wins_witness :
    mapLookup (buildMap [⟨"0000010800FF".toList, "1".toList, 0, 27⟩,
        ⟨"0000010800FF.x".toList, "2".toList, 0, 27⟩]) "1.8.0".toList
      = lastVal [⟨"0000010800FF".toList, "1".toList, 0, 27⟩,
        ⟨"0000010800FF.x".toList, "2".toList, 0, 27⟩] "1.8.0".toList
    ∧ getMeterValuesPure [⟨"0000010800FF".toList, "1".toList, 0, 27⟩,
        ⟨"0000010800FF.x".toList, "2".toList, 0, 27⟩]
      = some (buildMap [⟨"0000010800FF".toList, "1".toList, 0, 27⟩,
        ⟨"0000010800FF.x".toList, "2".toList, 0, 27⟩]) := by
  have h := getMeterValues_last_wins [⟨"0000010800FF".toList, "1".toList, 0, 27⟩,
    ⟨"0000010800FF.x".toList, "2".toList, 0, 27⟩] "1.8.0".toList
  exact ⟨h.1, h.2.2 (by decide)⟩

lemma discoverMeterID_cons_none {fetch : String → Option DerivedContract}
    {id : String} {rest : List String} (h : fetch id = none) :
    discoverMeterID fetch (id :: rest) = discoverMeterID fetch rest := by
  simp only [discoverMeterID, h]

lemma discoverMeterID_cons_empty {fetch : String → Option DerivedContract}
    {id : String} {rest : List String} {cc : DerivedContract}
    (h : fetch id = some cc) (hd : cc.sensorDomains = []) :
    discoverMeterID fetch (id :: rest) = discoverMeterID fetch rest := by
  simp only [discoverMeterID, h, hd]

lemma discoverMeterID_cons_hit {fetch : String → Option DerivedContract}
    {id : String} {rest : List String} {cc : DerivedContract} {d : String}
    {ds : List String} (h : fetch id = some cc) (hd : cc.sensorDomains = d :: ds) :
    discoverMeterID fetch (id :: rest) = some d := by
  simp only [discoverMeterID, h, hd]

lemma discoverMeterID_none_iff (fetch : String → Option DerivedContract)
    (cs : List String) :
    discoverMeterID fetch cs = none ↔
      ∀ j ∈ cs, ∀ cc, fetch j = some cc → cc.sensorDomains = [] := by
  induction cs with
  | nil => simp [discoverMeterID]
  | cons j rest ih =>
    rcases hf : fetch j with _ | cc
    · rw [discoverMeterID_cons_none hf, ih]
      constructor
      · intro h it hit cc hcc
        rcases List.mem_cons.mp hit with rfl | hmem
        · rw [hf] at hcc
          exact Option.noConfusion hcc
        · exact h it hmem cc hcc
      · intro h it hmem cc hcc
        exact h it (List.mem_cons_of_mem j hmem) cc hcc
    · rcases hd : cc.sensorDomains with _ | ⟨d, ds⟩
      · rw [discoverMeterID_cons_empty hf hd, ih]
        constructor
        · intro h it hit cc2 hcc
          rcases List.mem_cons.mp hit with rfl | hmem
          · rw [hf] at hcc
            rw [← Option.some.inj hcc]
            exact hd
          · exact h it hmem cc2 hcc
        · intro h it hmem cc2 hcc
          exact h it (List.mem_cons_of_mem j hmem) cc2 hcc
      · rw [discoverMeterID_cons_hit hf hd]
        constructor
        · intro h
          exact Option.noConfusion h
        · intro h
          have := h j (List.mem_cons_self j rest) cc hf
          rw [hd] at this
          exact List.noConfusion this

/-- Claim C6: `DiscoverMeterID` walks the contract identifiers in order,
skipping failed detail fetches and contracts without sensor domains; the
meter identity becomes the first sensor-domain entry of the first contract
whose list is non-empty, and the operation fails exactly when no fetched
contract has a non-empty sensor-domain list. -/
theorem discoverMeterID_first_eligible (fetch : String → Option DerivedContract)
    (cs pre post : List String) (id : String) (c : DerivedContract) :
    (discoverMeterID fetch cs = none ↔
      ∀ j ∈ cs, ∀ cc, fetch j = some cc → cc.sensorDomains = [])
    ∧ (cs = pre ++ id :: post →
        (∀ j ∈ pre, ∀ cc, fetch j = some cc → cc.sensorDomains = []) →
        fetch id = some c → c.sensorDomains ≠ [] →
        discoverMeterID fetch cs = c.sensorDomains.head?) := by
  refine ⟨discoverMeterID_none_iff fetch cs, ?_⟩
  intro hsplit hpre hid hne
  subst hsplit
  induction pre with
  | nil =>
    obtain ⟨d, ds, hd⟩ := List.exists_cons_of_ne_nil hne
    rw [List.nil_append, discoverMeterID_cons_hit hid hd, hd]
    rfl
  | cons p pre' ih =>
    have htail := ih (fun j hj cc hcc => hpre j (List.mem_cons_of_mem p hj) cc hcc)
    rcases hf : fetch p with _ | cc
    · rw [List.cons_append, discoverMeterID_cons_none hf]
      exact htail
    · rw [List.cons_append,
        discoverMeterID_cons_empty hf (hpre p (List.mem_cons_self p _) cc hf)]
      exact htail

/-- Witness for C6: contracts A (no sensor domains), B (domains X, Y),
C (domains Z) yield meter identity X. -/
theorem discoverMeterID_first_eligible_witness :
    discoverMeterID
      (fun id => if id = "A" then some ⟨[]⟩ else if id = "B" then some ⟨["X", "Y"]⟩
        else if id = "C" then some ⟨["Z"]⟩ else none)
      ["A", "B", "C"] = some "X" := by
  have h := (discoverMeterID_first_eligible
    (fun id => if id = "A" then some ⟨[]⟩ else if id = "B" then some ⟨["X", "Y"]⟩
      else if id = "C" then some ⟨["Z"]⟩ else none)
    ["A", "B", "C"] ["A"] ["C"] "B" ⟨["X", "Y"]⟩).2 rfl ?_ rfl (by simp)
  · rw [h]
    rfl
  · intro j hj cc hcc
    have hj2 : j = "A" := by simpa using hj
    subst hj2
    rw [show (if "A" = "A" then some (⟨[]⟩ : DerivedContract)
      else if "A" = "B" then some ⟨["X", "Y"]⟩
      else if "A" = "C" then some ⟨["Z"]⟩ else none) = some ⟨[]⟩ from rfl] at hcc
    rw [← Option.some.inj hcc]

/-- Claim C7 (the digest transport is modelled from the spec, its source
not being among the files under study): when the server answers 401 to
every send — in particular with a fresh nonce each time — the transport
performs exactly one challenge-derived authenticated resend, never loops
beyond it, and surfaces the server's status. -/
theorem digest_single_retry (cached : Bool) (server : Nat → DigestResponse)
    (h401 : ∀ n, (server n).status = 401) :
    (digestRoundTrip cached server).resp.status = 401
    ∧ (digestRoundTrip cached server).authRetries = 1
    ∧ (digestRoundTrip cached server).totalSends ≤ 3 := by
  cases cached <;> simp [digestRoundTrip, h401]

/-- Witness for C7: a server returning 401 with a fresh nonce on every
request. -/
theorem digest_single_retry_witness :
    (digestRoundTrip false (fun n => ⟨401, toString n⟩)).resp.status = 401
    ∧ (digestRoundTrip false (fun n => ⟨401, toString n⟩)).authRetries = 1
    ∧ (digestRoundTrip false (fun n => ⟨401, toString n⟩)).totalSends ≤ 3 :=
  digest_single_retry false (fun n => ⟨401, toString n⟩) (fun _ => rfl)

/-- Claim C10: for http/https default schemes, `defaultScheme` always
produces a uri starting with `http://` or `https://`, leaves an already
prefixed uri unchanged, and is idempotent. -/
theorem defaultScheme_idempotent (uri scheme : Str)
    (hs : scheme = "http".toList ∨ scheme = "https".toList) :
    (httpPfx <+: defaultScheme uri scheme ∨ httpsPfx <+: defaultScheme uri scheme)
    ∧ ((httpPfx <+: uri ∨ httpsPfx <+: uri) → defaultScheme uri scheme = uri)
    ∧ defaultScheme (defaultScheme uri scheme) scheme = defaultScheme uri scheme := by
  have hfix : ∀ u : Str, (httpPfx <+: u ∨ httpsPfx <+: u) → defaultScheme u scheme = u := by
    intro u h
    unfold defaultScheme
    rw [if_neg (by tauto)]
  by_cases hcond : ¬ httpPfx <+: uri ∧ ¬ httpsPfx <+: uri
  · have hds : defaultScheme uri scheme = scheme ++ "://".toList ++ uri := by
      unfold defaultScheme
      rw [if_pos hcond]
    have hpfx : httpPfx <+: defaultScheme uri scheme
        ∨ httpsPfx <+: defaultScheme uri scheme := by
      rcases hs with rfl | rfl
      · left
        rw [hds, show "http".toList ++ "://".toList = httpPfx from by decide]
        exact List.prefix_append _ _
      · right
        rw [hds, show "https".toList ++ "://".toList = httpsPfx from by decide]
        exact List.prefix_append _ _
    exact ⟨hpfx, hfix uri, hfix _ hpfx⟩
  · have hor : httpPfx <+: uri ∨ httpsPfx <+: uri := by tauto
    have hu := hfix uri hor
    refine ⟨?_, fun _ => hu, ?_⟩
    · rw [hu]
      exact hor
    · rw [hu]
      exact hu

/-- Witness for C10 at a bare host uri and the https default scheme. -/
theorem defaultScheme_idempotent_witness :
    (httpPfx <+: defaultScheme "192.168.33.2".toList "https".toList
      ∨ httpsPfx <+: defaultScheme "192.168.33.2".toList "https".toList)
    ∧ defaultScheme (defaultScheme "192.168.33.2".toList "https".toList) "https".toList
      = defaultScheme "192.168.33.2".toList "https".toList := by
  have h := defaultScheme_idempotent "192.168.33.2".toList "https".toList (Or.inr rfl)
  exact ⟨h.1, h.2.2⟩
